import Mathlib

/-!
Shallow embedding of the op-graph construction and executable-invocation core
of the tripy / nvtripy tensor-compiler frontend, together with proofs about
its calling convention, error translation, serialization round-trip, dtype
constraint checking, squeeze shape semantics, rank-inference policies and
constant lowering.

The embedding follows the Python sources:
  - nvtripy/backend/api/executable.py   (Executable.__call__, ArgInfo,
    _get_arg_info/_get_input_info, encode_executable/decode_executable)
  - nvtripy/frontend/ops/squeeze.py
  - nvtripy/trace/ops/convolution.py
  - tripy/flat_ir/ops/constant.py       (ConstantOp.to_mlir)
  - tripy/frontend/trace/ops/unary_elementwise.py
-/

/-- Tensor element datatypes of tripy (tripy.common.datatype). -/
inductive DType where
  | float32
  | float16
  | bfloat16
  | float8
  | int4
  | int8
  | int32
  | int64
  | uint8
  | bool
deriving DecidableEq, Repr

/-- The data of one input tensor as seen by `Executable.__call__`:
its dtype and its concrete shape. -/
structure TensorVal where
  dtype : DType
  shape : List Nat
deriving DecidableEq, Repr

/-- Lookup in a Python dict modelled as an association list with unique keys
(`kwargs[name]` / `name in kwargs`). -/
def dictLookup : List (String × TensorVal) → String → Option TensorVal
  | [], _ => none
  | (k, v) :: rest, n => if k = n then some v else dictLookup rest n

/-- Deletion from a Python dict modelled as an association list
(`del kwargs[name]`): removes the first entry with the given key. -/
def dictErase : List (String × TensorVal) → String → List (String × TensorVal)
  | [], _ => []
  | (k, v) :: rest, n => if k = n then rest else (k, v) :: dictErase rest n

/-- The binding-time errors raised by `Executable.__call__` before any
backend interaction, with the data each message reports. -/
inductive BindError where
  | missingArgument (name : String) (expected : List String)
  | extraArguments (names : List String) (alreadyPositional : List String)
  | arityMismatch (expected got : Nat)
deriving DecidableEq, Repr

/-- The loop of `Executable.__call__` over `expected_kwargs`: for each
expected name, raise `Missing argument` if it is absent from `kwargs`,
otherwise append its value to `input_tensors` and delete it from `kwargs`. -/
def bindLoop (argNames : List String) (expected : List String)
    (kwargs : List (String × TensorVal)) (acc : List TensorVal) :
    Except BindError (List TensorVal × List (String × TensorVal)) :=
  match expected with
  | [] => .ok (acc, kwargs)
  | name :: rest =>
    match dictLookup kwargs name with
    | none => .error (.missingArgument name argNames)
    | some v => bindLoop argNames rest (dictErase kwargs name) (acc ++ [v])

/-- The argument-binding phase of `Executable.__call__` (executable.py,
lines 155-186): bind positional arguments to the prefix of `arg_names`,
consume keyword arguments for the remaining names (raising `Missing
argument` for an absent name), then raise `Extra keyword arguments` if any
keyword argument was not consumed, and only then check the total argument
count against the declared arity. -/
def callBind (argNames : List String) (args : List TensorVal)
    (kwargs : List (String × TensorVal)) : Except BindError (List TensorVal) :=
  let numPositional := args.length
  let numArgs := numPositional + kwargs.length
  match bindLoop argNames (argNames.drop numPositional) kwargs args with
  | .error e => .error e
  | .ok (inputTensors, rest) =>
    if rest.isEmpty then
      if numArgs ≠ argNames.length then
        .error (.arityMismatch argNames.length numArgs)
      else
        .ok inputTensors
    else
      .error (.extraArguments (rest.map Prod.fst) (argNames.take numPositional))

/-- Derived, read-only summary of one compiled-signature argument
(class `ArgInfo` in executable.py). -/
structure ArgInfo where
  shape_bounds : List (Nat × Nat)
  dtype : DType
deriving DecidableEq, Repr

/-- One argument of a compiled signature as the backend exposes it:
the result of `get_arg_bound(idx)` (zipped min/max bounds, possibly empty
for static arguments), the memref shape from `get_arg(idx)`, and the
runtime dtype converted to a tripy dtype. -/
structure SigArg where
  bounds : List (Nat × Nat)
  shape : List Nat
  dtype : DType
deriving DecidableEq, Repr

/-- The compiled signature returned by `executable.get_signature("main")`:
the per-argument data plus the input/output argument counts. -/
structure Signature where
  args : List SigArg
  numInputArgs : Nat
  numOutputArgs : Nat
deriving DecidableEq, Repr

def defaultSigArg : SigArg := ⟨[], [], DType.float32⟩

/-- `Executable._get_arg_info`: read the signature's zipped (min, max) bound
list for argument `idx`; if it is empty (a static argument), fall back to
the argument's literal shape with min = max per dimension. -/
def getArgInfo (s : Signature) (idx : Nat) : ArgInfo :=
  let arg := s.args.getD idx defaultSigArg
  let shapeBounds := arg.bounds
  if shapeBounds.isEmpty then ⟨arg.shape.map (fun x => (x, x)), arg.dtype⟩
  else ⟨shapeBounds, arg.dtype⟩

/-- `Executable._get_input_info`: `ArgInfo` for each input argument. -/
def getInputInfo (s : Signature) : List ArgInfo :=
  (List.range s.numInputArgs).map (getArgInfo s)

/-- `Executable._get_output_info`: `ArgInfo` for each output argument,
offset past the input arguments. -/
def getOutputInfo (s : Signature) : List ArgInfo :=
  (List.range s.numOutputArgs).map (fun idx => getArgInfo s (idx + s.numInputArgs))

/-- The compiled backend artifact: an opaque binary handle from which the
backend can report a signature. `payload` stands for the remaining binary
content that the signature does not determine. -/
structure Artifact where
  sig : Signature
  payload : List Nat
deriving DecidableEq, Repr

/-- `executable.get_signature("main")`: the signature the backend derives
from an artifact. -/
def getSignature (a : Artifact) : Signature := a.sig

/-- An `Executable`: the compiled artifact, the ordered argument names and
the per-output device assignment (class `Executable` in executable.py). -/
structure Executable where
  executable : Artifact
  arg_names : List String
  output_devices : List String
deriving DecidableEq, Repr

/-- `Executable.__init__` stores `_executable_signature =
self._executable.get_signature("main")`; the signature is a pure function
of the artifact, recomputed at every construction. -/
def signatureOf (e : Executable) : Signature := getSignature e.executable

/-- Boolean prefix test on character lists. -/
def isPrefixOfB : List Char → List Char → Bool
  | [], _ => true
  | _ :: _, [] => false
  | a :: as, b :: bs => a = b && isPrefixOfB as bs

/-- Boolean substring containment on character lists: models Python's
`phrase in str(err)`. -/
def containsSub (phrase : List Char) : List Char → Bool
  | [] => phrase.isEmpty
  | c :: rest => isPrefixOfB phrase (c :: rest) || containsSub phrase rest

/-- The element-type mismatch phrase matched in `Executable.__call__`. -/
def dtypePhrase : List Char :=
  String.toList "function expects a memref type with element type"

/-- The first shape-violation phrase matched in `Executable.__call__`. -/
def shapePhrase1 : List Char :=
  String.toList "InternalError: failed to set input shape"

/-- The second shape-violation phrase matched in `Executable.__call__`. -/
def shapePhrase2 : List Char := String.toList "Runtime shape mismatch"

/-- The stride mismatch phrase matched in `Executable.__call__`. -/
def stridePhrase : List Char := String.toList "Runtime stride mismatch"

/-- Python's three-list `zip`: truncates to the shortest list. -/
def zip3 : List α → List β → List γ → List (α × β × γ)
  | a :: as, b :: bs, c :: cs => (a, b, c) :: zip3 as bs cs
  | _, _, _ => []

/-- The loop of the dtype branch of the error translation: the first
`(tensor, dtype, arg_name)` triple whose tensor dtype differs from the
expected dtype, together with the data the raised message reports. -/
def firstDtypeMismatch : List (TensorVal × DType × String) → Option (String × DType × DType)
  | [] => none
  | (t, d, name) :: rest =>
    if t.dtype ≠ d then some (name, d, t.dtype) else firstDtypeMismatch rest

/-- The inner loop of the shape branch: scan dimensions `i` of one tensor's
shape against the expected bounds, returning the first dimension whose size
falls outside its (min, max) window, with the window and the actual size.
Indexing `expected_bounds[i]` in the source presumes the bound list covers
every dimension of the shape; the theorems below carry that hypothesis. -/
def firstDimViolationAux (i : Nat) : List Nat → List (Nat × Nat) → Option (Nat × (Nat × Nat) × Nat)
  | [], _ => none
  | _ :: _, [] => none
  | s :: srest, b :: brest =>
    if s < b.1 ∨ s > b.2 then some (i, b, s)
    else firstDimViolationAux (i + 1) srest brest

/-- The outer loop of the shape branch: the first `(tensor, bounds,
arg_name)` triple containing a dimension outside its bound window. -/
def firstShapeViolation : List (TensorVal × List (Nat × Nat) × String) → Option (String × Nat × (Nat × Nat) × Nat)
  | [] => none
  | (t, bounds, name) :: rest =>
    match firstDimViolationAux 0 t.shape bounds with
    | some (i, b, s) => some (name, i, b, s)
    | none => firstShapeViolation rest

/-- The errors `Executable.__call__` can raise: a binding error, one of the
enriched diagnostics derived from a backend failure, the verbatim re-raise
of a stride mismatch, or the unchanged propagation of the backend error. -/
inductive CallError where
  | bindError (e : BindError)
  | unexpectedDtype (param : String) (expected actual : DType)
  | shapeOutOfBounds (param : String) (dim : Nat) (bound : Nat × Nat) (actual : Nat)
  | tripyError (msg : List Char)
  | reraised (msg : List Char)
deriving DecidableEq, Repr

/-- The `except runtime.MTRTException` handler of `Executable.__call__`
(executable.py, lines 196-230): match the backend message against the known
phrases in order; in the dtype branch report the first parameter whose
supplied dtype differs from the signature dtype; in the shape branch report
the first dimension of the first tensor outside its bound window; re-raise
a stride mismatch verbatim; propagate anything else (including a matched
branch whose loop finds no culprit) unchanged. -/
def translateErr (msg : List Char) (inputTensors : List TensorVal)
    (inputInfos : List ArgInfo) (argNames : List String) : CallError :=
  if containsSub dtypePhrase msg then
    match firstDtypeMismatch (zip3 inputTensors (inputInfos.map ArgInfo.dtype) argNames) with
    | some (name, expected, actual) => .unexpectedDtype name expected actual
    | none => .reraised msg
  else if containsSub shapePhrase1 msg || containsSub shapePhrase2 msg then
    match firstShapeViolation (zip3 inputTensors (inputInfos.map ArgInfo.shape_bounds) argNames) with
    | some (name, i, b, s) => .shapeOutOfBounds name i b s
    | none => .reraised msg
  else if containsSub stridePhrase msg then .tripyError msg
  else .reraised msg

/-- Observable effects of one invocation: materializing (evaluating) the
input tensor at a given bound position, and invoking the backend runtime. -/
inductive Ev where
  | materialize (idx : Nat)
  | invoke
deriving DecidableEq, Repr

/-- `Executable.__call__` end to end: bind the arguments (any binding error
aborts the call before any tensor is evaluated and before the backend runs),
then evaluate every bound input tensor, invoke the backend, translate a
backend failure, and unwrap a single output from the returned list. The
second component records the materialization/invocation events in order. -/
def callRun (e : Executable) (args : List TensorVal)
    (kwargs : List (String × TensorVal))
    (backend : List TensorVal → Except (List Char) (List TensorVal)) :
    Except CallError (TensorVal ⊕ List TensorVal) × List Ev :=
  match callBind e.arg_names args kwargs with
  | .error be => (.error (.bindError be), [])
  | .ok inputTensors =>
    let evs := ((List.range inputTensors.length).map Ev.materialize) ++ [Ev.invoke]
    match backend inputTensors with
    | .error msg =>
      (.error (translateErr msg inputTensors (getInputInfo (signatureOf e)) e.arg_names), evs)
    | .ok outs =>
      match outs with
      | [o] => (.ok (.inl o), evs)
      | _ => (.ok (.inr outs), evs)

/-- One symbol of a base64-encoded text: a six-bit digit or the padding
symbol `=`. -/
inductive B64Sym where
  | digit (v : Nat)
  | pad
deriving DecidableEq, Repr

/-- `base64.b64encode` over a byte list: groups of three bytes become four
six-bit digits; a trailing group of one byte becomes two digits plus two
padding symbols, a trailing group of two bytes three digits plus one. -/
def b64encode : List Nat → List B64Sym
  | [] => []
  | [b1] => [.digit (b1 / 4), .digit (b1 % 4 * 16), .pad, .pad]
  | [b1, b2] =>
    [.digit (b1 / 4), .digit (b1 % 4 * 16 + b2 / 16), .digit (b2 % 16 * 4), .pad]
  | b1 :: b2 :: b3 :: rest =>
    .digit (b1 / 4) :: .digit (b1 % 4 * 16 + b2 / 16) ::
      .digit (b2 % 16 * 4 + b3 / 64) :: .digit (b3 % 64) :: b64encode rest

/-- `base64.b64decode` over the symbol list: inverts `b64encode` group by
group; malformed input decodes to the empty byte list. -/
def b64decode : List B64Sym → List Nat
  | [.digit s1, .digit s2, .pad, .pad] => [s1 * 4 + s2 / 16]
  | [.digit s1, .digit s2, .digit s3, .pad] =>
    [s1 * 4 + s2 / 16, s2 % 16 * 16 + s3 / 4]
  | .digit s1 :: .digit s2 :: .digit s3 :: .digit s4 :: rest =>
    (s1 * 4 + s2 / 16) :: (s2 % 16 * 16 + s3 / 4) :: (s3 % 4 * 64 + s4) :: b64decode rest
  | _ => []

/-- The persisted record produced by `encode_executable`: argument names,
output devices, and the base64 text of the serialized artifact — and
nothing else (in particular, no signature). -/
structure ExecutableRecord where
  arg_names : List String
  output_devices : List String
  executable : List B64Sym
deriving DecidableEq, Repr

/-- `encode_executable` (executable.py, lines 295-301), parametrized by the
backend's opaque `executable.serialize()`. -/
def encode_executable (serialize : Artifact → List Nat) (e : Executable) :
    ExecutableRecord :=
  ⟨e.arg_names, e.output_devices, b64encode (serialize e.executable)⟩

/-- `decode_executable` (executable.py, lines 304-311), parametrized by the
backend's opaque `runtime.Executable(bytes)` constructor: rebuild the
artifact from the base64-decoded bytes and construct the `Executable` from
it with the recorded names and devices. -/
def decode_executable (deserialize : List Nat → Artifact)
    (r : ExecutableRecord) : Executable :=
  ⟨deserialize (b64decode r.executable), r.arg_names, r.output_devices⟩

/-- The construction-time errors of the dtype constraint checker. -/
inductive ConstraintError where
  | dtypeNotAllowed (param tyVar : String) (got : DType)
  | dtypeMismatch (expected got : DType) (param : String)
deriving DecidableEq, Repr

/-- Lookup of a type variable in the binding environment. -/
def tvLookup : List (String × DType) → String → Option DType
  | [], _ => none
  | (k, v) :: rest, n => if k = n then some v else tvLookup rest n

/-- Modelled from the spec: the dtype constraint checker run by the
`wrappers.interface` / `constraints.dtype_info` decorators at operation
construction time (the decorator implementation is not among the analysed
sources; the declarations it consumes are). For each parameter in
declaration order, look up its type variable: if unbound, bind it to the
argument's dtype provided that dtype is in the variable's declared allowed
set, else fail with `DtypeNotAllowed`; if bound, the argument's dtype must
equal the bound value, else fail with `DtypeMismatch`. The first violation
is reported. Each parameter is a (name, type variable, argument dtype)
triple; `allowed` gives each variable's declared dtype set. -/
def checkConstraints (allowed : String → List DType) :
    List (String × String × DType) → List (String × DType) →
    Except ConstraintError (List (String × DType))
  | [], env => .ok env
  | (param, tv, d) :: rest, env =>
    match tvLookup env tv with
    | none =>
      if d ∈ allowed tv then checkConstraints allowed rest ((tv, d) :: env)
      else .error (.dtypeNotAllowed param tv d)
    | some b =>
      if d = b then checkConstraints allowed rest env
      else .error (.dtypeMismatch b d param)

/-- The declared dtype set of type variable T1 of `abs`
(unary_elementwise.py, lines 265-269). -/
def absAllowedT1 : List DType := [.float32, .float16, .bfloat16, .int8, .int32]

/-- The declared dtype set of type variable T1 of `squeeze`
(squeeze.py, line 26). -/
def squeezeAllowedT1 : List DType :=
  [.float32, .float16, .bfloat16, .float8, .int8, .int32, .int64, .bool]

/-- Constraint check of `abs` at construction: its one `input` parameter is
bound to T1 (unary_elementwise.py, line 269). -/
def absCheck (d : DType) : Except ConstraintError (List (String × DType)) :=
  checkConstraints (fun _ => absAllowedT1) [("input", "T1", d)] []

/-- Constraint check of `squeeze` at construction: its one `input`
parameter is bound to T1 (squeeze.py, line 25). -/
def squeezeCheck (d : DType) : Except ConstraintError (List (String × DType)) :=
  checkConstraints (fun _ => squeezeAllowedT1) [("input", "T1", d)] []

/-- The error of squeezing a dimension whose size is not 1. -/
inductive SqueezeError where
  | dimNotOne
deriving DecidableEq, Repr

/-- Python's error for calling a function without a required argument. -/
inductive PyCallError where
  | missingRequiredArgument (name : String)
deriving DecidableEq, Repr

/-- Modelled from the spec: the shape semantics of the `Squeeze` trace
operation (nvtripy/trace/ops/squeeze.py is not among the analysed sources):
an empty target-dimension list removes every size-1 dimension; a nonempty
list removes exactly the listed dimensions, each of which must exist and
have size 1, failing otherwise. -/
def squeezeShape (shape : List Nat) (dims : List Nat) :
    Except SqueezeError (List Nat) :=
  if dims.isEmpty then .ok (shape.filter (fun s => s ≠ 1))
  else if dims.all (fun d => d < shape.length && shape.getD d 0 = 1) then
    .ok (((List.range shape.length).zip shape).filterMap
      (fun p => if dims.contains p.1 then none else some p.2))
  else .error .dimNotOne

/-- The frontend `squeeze(input, dims)` call (squeeze.py, line 28): the
signature declares `dims` with no default, so Python rejects a call that
does not supply target dimensions before any tripy code runs; when `dims`
is supplied, `make_tuple(dims)` is forwarded to the `Squeeze` trace
operation. `none` models a call with no `dims` argument. -/
def squeezeCall (shape : List Nat) (dims : Option (List Nat)) :
    Except (PyCallError ⊕ SqueezeError) (List Nat) :=
  match dims with
  | none => .error (.inl (.missingRequiredArgument "dims"))
  | some d =>
    match squeezeShape shape d with
    | .ok s => .ok s
    | .error e => .error (.inr e)

/-- Modelled from the spec: the "same rank as input" rank inference policy
(`op_utils.InferRankPolicies.same_as_input()`; nvtripy/trace/ops/utils.py
is not among the analysed sources): the output rank equals the rank of the
designated (first) input. -/
def inferRankSameAsInput (inputRanks : List Nat) : Nat := inputRanks.headD 0

/-- The `Convolution` trace node (convolution.py, lines 25-36): its
attributes, its input ranks, and its output rank, which `infer_rank` sets
via the same-as-input policy. -/
structure Convolution where
  padding : List (List Int)
  stride : List Int
  groups : Int
  lhs_dilation : List Int
  rhs_dilation : List Int
  inputRanks : List Nat
  outputRank : Nat
deriving DecidableEq, Repr

/-- Construction of a `Convolution` node: `infer_rank` is the
same-as-input policy (convolution.py, line 33). -/
def mkConvolution (padding : List (List Int)) (stride : List Int)
    (groups : Int) (lhsDil rhsDil : List Int) (inputRanks : List Nat) :
    Convolution :=
  ⟨padding, stride, groups, lhsDil, rhsDil, inputRanks,
    inferRankSameAsInput inputRanks⟩

/-- Host data of a backend memref constant: the flat element values (for a
boolean memref, the raw 0/1 bytes) and the shape. -/
structure MemRefData where
  values : List Int
  shape : List Nat
  onDevice : Bool
deriving DecidableEq, Repr

/-- A nested Python number sequence, the non-memref form of `ConstantOp`
data. -/
inductive PyData where
  | num (n : Int)
  | seq (elems : List PyData)

/-- The `data` field of `ConstantOp`: a backend memref or a Python
sequence. -/
inductive ConstData where
  | memref (m : MemRefData)
  | pySeq (d : PyData)

mutual

/-- The `to_attrs` helper of `ConstantOp.to_mlir`: flatten a nested
sequence into the list of its scalar attributes. -/
def toAttrs : PyData → List Int
  | .num n => [n]
  | .seq es => toAttrsList es

/-- `to_attrs` mapped over a sequence's elements, concatenated. -/
def toAttrsList : List PyData → List Int
  | [] => []
  | e :: rest => toAttrs e ++ toAttrsList rest

end

/-- The ops `ConstantOp.to_mlir` emits into the target module: a dense
tensor literal with an element type, or an element-type conversion. -/
inductive MlirOp where
  | constantOp (elemType : DType) (values : List Int) (shape : List Nat)
  | convertOp (outType : DType) (shape : List Nat)
deriving DecidableEq, Repr

/-- `ConstantOp.to_mlir` (constant.py, lines 42-91), recorded as the
builder invocations in creation order (the last op's results map to the
node's outputs). Memref data is first copied to host if on device, which
changes neither values nor shape. For a boolean output the memref's raw
bytes are materialized as an int32 constant and converted to bool, because
the target IR has no boolean tensor literal; otherwise a single constant
with the output's element type is emitted. Python-sequence data becomes a
single constant from its flattened scalar attributes. -/
def constantOpToMlir (data : ConstData) (outDtype : DType)
    (outShape : List Nat) : List MlirOp :=
  match data with
  | .memref m =>
    if outDtype = DType.bool then
      [.constantOp DType.int32 m.values m.shape, .convertOp DType.bool m.shape]
    else
      [.constantOp outDtype m.values m.shape]
  | .pySeq d => [.constantOp outDtype (toAttrs d) outShape]

/-- Default values used with `List.getD` in indexed statements. -/
def defaultTensorVal : TensorVal := ⟨DType.float32, []⟩

def defaultArgInfo : ArgInfo := ⟨[], DType.float32⟩

/-- A sample one-argument signature: dynamic bounds (1, 4) on the single
dimension of a float32 argument. -/
def sampleSig1 : Signature := ⟨[⟨[(1, 4)], [2], .float32⟩], 1, 1⟩

/-- A sample executable with one argument named x. -/
def sampleExe1 : Executable := ⟨⟨sampleSig1, [5, 200]⟩, ["x"], ["gpu0"]⟩

/-- A sample two-argument signature with static unit shapes. -/
def sampleSigAB : Signature := ⟨[⟨[], [1], .float32⟩, ⟨[], [1], .float32⟩], 2, 1⟩

/-- A sample executable declaring arguments (a, b). -/
def sampleExeAB : Executable := ⟨⟨sampleSigAB, []⟩, ["a", "b"], ["gpu0"]⟩

/-- A sample float32 tensor of shape (1,). -/
def sampleF32 : TensorVal := ⟨.float32, [1]⟩

/-- A sample int32 tensor of shape (1,). -/
def sampleI32 : TensorVal := ⟨.int32, [1]⟩

/-- A backend stub that succeeds with no outputs. -/
def backendOk : List TensorVal → Except (List Char) (List TensorVal) :=
  fun _ => .ok []

/-- A backend stub that fails with the element-type mismatch phrase. -/
def backendDtypeErr : List TensorVal → Except (List Char) (List TensorVal) :=
  fun _ => .error dtypePhrase

/-- A backend stub that fails with the runtime shape mismatch phrase. -/
def backendShapeErr : List TensorVal → Except (List Char) (List TensorVal) :=
  fun _ => .error shapePhrase2

/-- Claim C5: for every public operation with a declared dtype-variable
constraint set S (abs with its five-dtype set, squeeze with its declared T1
set), constructing the operation with an input dtype outside S fails with
`DtypeNotAllowed`, and an unbound type variable is bound exactly when the
argument's dtype is a member of the declared allowed set. -/
theorem dtype_constraint_gate :
    (∀ d : DType, d ∉ absAllowedT1 →
      absCheck d = .error (.dtypeNotAllowed "input" "T1" d))
    ∧ (∀ d : DType, d ∈ absAllowedT1 → absCheck d = .ok [("T1", d)])
    ∧ (∀ d : DType, d ∉ squeezeAllowedT1 →
      squeezeCheck d = .error (.dtypeNotAllowed "input" "T1" d))
    ∧ (∀ d : DType, d ∈ squeezeAllowedT1 → squeezeCheck d = .ok [("T1", d)]) := by
  refine ⟨?_, ?_, ?_, ?_⟩ <;> intro d hd <;>
    simp [absCheck, squeezeCheck, checkConstraints, tvLookup, hd]

/-- Witness for C5: int64 is outside abs's allowed set and is rejected;
int4 is outside squeeze's allowed set and is rejected; float32 is allowed
for abs and binds T1. -/
theorem dtype_constraint_gate_witness :
    absCheck .int64 = .error (.dtypeNotAllowed "input" "T1" .int64)
    ∧ squeezeCheck .int4 = .error (.dtypeNotAllowed "input" "T1" .int4)
    ∧ absCheck .float32 = .ok [("T1", .float32)] :=
  ⟨dtype_constraint_gate.1 .int64 (by decide),
   dtype_constraint_gate.2.2.1 .int4 (by decide),
   dtype_constraint_gate.2.1 .float32 (by decide)⟩

/-- Claim C6 (evaluating the code at the failing input): squeezing shape
(1, 2, 1) with target dimensions (0, 2) yields shape (2,); but a call that
supplies no target dimensions is rejected by Python with a missing-argument
error, because the frontend signature declares `dims` with no default —
contradicting the docstring's promise that omitting `dims` removes every
size-1 dimension (which the modelled trace-level semantics, third conjunct,
would implement for an empty dimension list). -/
theorem squeeze_shape_concrete :
    squeezeCall [1, 2, 1] (some [0, 2]) = .ok [2]
    ∧ squeezeCall [1, 2, 1] none = .error (.inl (.missingRequiredArgument "dims"))
    ∧ squeezeShape [1, 2, 1] [] = .ok [2] :=
  ⟨rfl, rfl, rfl⟩

/-- Claim C7: for the "same rank as input" rank policy — in particular the
Convolution trace node, whose `infer_rank` is that policy — the output rank
of a freshly constructed node equals the rank of its designated (first)
input, for any input rank. -/
theorem convolution_same_rank_as_input (padding : List (List Int))
    (stride : List Int) (groups : Int) (lhsDil rhsDil : List Int)
    (r : Nat) (restRanks : List Nat) :
    (mkConvolution padding stride groups lhsDil rhsDil (r :: restRanks)).outputRank = r
    ∧ inferRankSameAsInput (r :: restRanks) = r :=
  ⟨rfl, rfl⟩

/-- Claim C8: lowering a constant-producing node whose output dtype is
boolean and whose data is a backend memref emits a wider-integer (int32)
constant followed by a conversion to the boolean output type, and never a
boolean tensor literal directly. -/
theorem constant_bool_lowering (m : MemRefData) (outShape : List Nat) :
    constantOpToMlir (.memref m) DType.bool outShape =
      [.constantOp DType.int32 m.values m.shape, .convertOp DType.bool m.shape]
    ∧ ∀ vals sh, MlirOp.constantOp DType.bool vals sh ∉
      constantOpToMlir (.memref m) DType.bool outShape := by
  refine ⟨by simp [constantOpToMlir], ?_⟩
  intro vals sh
  simp [constantOpToMlir]

/-- Claim C10: an Executable declaring arguments (a, b), called with a
value for `a` both positionally and as a keyword, fails with the
extra-keyword-arguments error naming `a` (noting `a` was already provided
positionally), not with an arity error, and the backend is never invoked —
in either keyword order. -/
theorem duplicate_positional_keyword_is_extra (art : Artifact)
    (devs : List String) (x y z : TensorVal)
    (backend : List TensorVal → Except (List Char) (List TensorVal)) :
    callRun ⟨art, ["a", "b"], devs⟩ [x] [("a", y), ("b", z)] backend =
      (.error (.bindError (.extraArguments ["a"] ["a"])), [])
    ∧ callRun ⟨art, ["a", "b"], devs⟩ [x] [("b", z), ("a", y)] backend =
      (.error (.bindError (.extraArguments ["a"] ["a"])), []) := by
  constructor <;>
    simp [callRun, callBind, bindLoop, dictLookup, dictErase]

theorem dictLookup_dictErase (l : List (String × TensorVal)) (n m : String)
    (h : m ≠ n) : dictLookup (dictErase l n) m = dictLookup l m := by
  induction l with
  | nil => rfl
  | cons p rest ih =>
    obtain ⟨k, w⟩ := p
    by_cases hk : k = n
    · subst hk
      have hkm : ¬ k = m := fun hc => h hc.symm
      simp [dictLookup, dictErase, hkm]
    · simp only [dictErase, if_neg hk]
      by_cases hkm : k = m
      · simp [dictLookup, hkm]
      · simp [dictLookup, hkm, ih]

theorem dictErase_map_fst_sublist (l : List (String × TensorVal)) (n : String) :
    ((dictErase l n).map Prod.fst).Sublist (l.map Prod.fst) := by
  induction l with
  | nil => simp [dictErase]
  | cons p rest ih =>
    obtain ⟨k, v⟩ := p
    by_cases hk : k = n
    · simp only [dictErase, if_pos hk, List.map_cons]
      exact (List.Sublist.refl _).cons _
    · simp only [dictErase, if_neg hk, List.map_cons]
      exact ih.cons₂ _

theorem dictErase_filter (l : List (String × TensorVal)) (n : String)
    (rest : List String) (hk : (l.map Prod.fst).Nodup) :
    (dictErase l n).filter (fun p => !(rest.contains p.1)) =
      l.filter (fun p => !((n :: rest).contains p.1)) := by
  induction l with
  | nil => rfl
  | cons q tl ih =>
    obtain ⟨k, v⟩ := q
    simp only [List.map_cons, List.nodup_cons] at hk
    by_cases hkn : k = n
    · subst hkn
      simp only [dictErase, if_pos rfl]
      rw [List.filter_cons_of_neg (by simp)]
      refine List.filter_congr ?_
      intro p hp
      have hpk : p.1 ≠ k := by
        intro hcontra
        exact hk.1 (hcontra ▸ List.mem_map_of_mem Prod.fst hp)
      have hbk : (k == p.1) = false := beq_eq_false_iff_ne.mpr (Ne.symm hpk)
      simp [List.contains_cons, hbk]
      exact fun _ => hpk
    · simp only [dictErase, if_neg hkn, List.filter_cons]
      have hbk : (n == k) = false := beq_eq_false_iff_ne.mpr (Ne.symm hkn)
      have hnk : ((n :: rest).contains k) = (rest.contains k) := by
        simp [List.contains_cons, hbk]
        exact fun hc => absurd hc hkn
      rw [hnk, ih hk.2]

theorem find?_congrOn {α : Type} (p q : α → Bool) (l : List α)
    (h : ∀ x ∈ l, p x = q x) : l.find? p = l.find? q := by
  induction l with
  | nil => rfl
  | cons a t ih =>
    have ha := h a (List.mem_cons_self a t)
    simp only [List.find?]
    rw [ha]
    cases hq : q a
    · exact ih (fun x hx => h x (List.mem_cons_of_mem a hx))
    · rfl

theorem bindLoop_missing (A : List String) :
    ∀ (expected : List String) (kwargs : List (String × TensorVal))
      (acc : List TensorVal) (m : String),
      expected.Nodup →
      expected.find? (fun n => (dictLookup kwargs n).isNone) = some m →
      bindLoop A expected kwargs acc = .error (.missingArgument m A)
  | [], _, _, _, _, hfind => by simp at hfind
  | n :: rest, kwargs, acc, m, hex, hfind => by
    have hex2 := List.nodup_cons.mp hex
    cases hl : dictLookup kwargs n with
    | none =>
      have hm : n = m := by
        have : (n :: rest).find? (fun x => (dictLookup kwargs x).isNone) = some n := by
          simp [List.find?, hl]
        rw [this] at hfind
        exact Option.some.inj hfind
      subst hm
      simp [bindLoop, hl]
    | some v =>
      have hfind2 : rest.find? (fun x => (dictLookup kwargs x).isNone) = some m := by
        simpa [List.find?, hl] using hfind
      have hcong : rest.find? (fun x => (dictLookup (dictErase kwargs n) x).isNone) = some m := by
        rw [find?_congrOn _ (fun x => (dictLookup kwargs x).isNone) rest
          (fun x hx => by rw [dictLookup_dictErase kwargs n x (fun hc => hex2.1 (hc ▸ hx))])]
        exact hfind2
      simp only [bindLoop, hl]
      exact bindLoop_missing A rest (dictErase kwargs n) (acc ++ [v]) m hex2.2 hcong

theorem bindLoop_ok (A : List String) (v : String → TensorVal) :
    ∀ (expected : List String) (kwargs : List (String × TensorVal))
      (acc : List TensorVal),
      expected.Nodup → (kwargs.map Prod.fst).Nodup →
      (∀ n ∈ expected, dictLookup kwargs n = some (v n)) →
      bindLoop A expected kwargs acc =
        .ok (acc ++ expected.map v, kwargs.filter (fun p => !(expected.contains p.1)))
  | [], kwargs, acc, _, _, _ => by
      simp [bindLoop, List.contains]
  | n :: rest, kwargs, acc, hex, hk, hval => by
      have hn := hval n (by simp)
      have hex2 := List.nodup_cons.mp hex
      simp only [bindLoop, hn]
      rw [bindLoop_ok A v rest (dictErase kwargs n) (acc ++ [v n]) hex2.2
        ((dictErase_map_fst_sublist kwargs n).nodup hk)
        (fun x hx => by
          rw [dictLookup_dictErase kwargs n x (fun hc => hex2.1 (hc ▸ hx))]
          exact hval x (by simp [hx]))]
      rw [dictErase_filter kwargs n rest hk]
      simp

/-- Claim C1: the binding phase of `Executable.__call__` checks, in order:
(1) if some declared argument name receives neither a positional nor a
keyword value, the call fails with the missing-argument error naming the
first such name in declared order; (2) otherwise, if keyword arguments
remain unconsumed after binding against the declared argument-name order,
the call fails with the extra-arguments error naming them; (3) otherwise,
if the total number of supplied arguments differs from the declared arity,
the call fails with the arity-mismatch error. On any of these failures the
event trace is empty: no input tensor is materialized and the backend is
never invoked. -/
theorem callRun_of_bind_error (e : Executable) (args : List TensorVal)
    (kwargs : List (String × TensorVal))
    (backend : List TensorVal → Except (List Char) (List TensorVal))
    (be : BindError) (h : callBind e.arg_names args kwargs = .error be) :
    callRun e args kwargs backend = (.error (.bindError be), []) := by
  unfold callRun
  rw [h]

theorem executable_call_bind_trichotomy (e : Executable)
    (args : List TensorVal) (kwargs : List (String × TensorVal))
    (backend : List TensorVal → Except (List Char) (List TensorVal))
    (hnames : e.arg_names.Nodup) (hkeys : (kwargs.map Prod.fst).Nodup) :
    (∀ m, (e.arg_names.drop args.length).find?
        (fun n => (dictLookup kwargs n).isNone) = some m →
      callRun e args kwargs backend =
        (.error (.bindError (.missingArgument m e.arg_names)), []))
    ∧ ((e.arg_names.drop args.length).find?
        (fun n => (dictLookup kwargs n).isNone) = none →
      kwargs.filter (fun p => !((e.arg_names.drop args.length).contains p.1)) ≠ [] →
      callRun e args kwargs backend =
        (.error (.bindError (.extraArguments
          ((kwargs.filter
            (fun p => !((e.arg_names.drop args.length).contains p.1))).map Prod.fst)
          (e.arg_names.take args.length))), []))
    ∧ ((e.arg_names.drop args.length).find?
        (fun n => (dictLookup kwargs n).isNone) = none →
      kwargs.filter (fun p => !((e.arg_names.drop args.length).contains p.1)) = [] →
      args.length + kwargs.length ≠ e.arg_names.length →
      callRun e args kwargs backend =
        (.error (.bindError (.arityMismatch e.arg_names.length
          (args.length + kwargs.length))), [])) := by
  have hdropnd : (e.arg_names.drop args.length).Nodup :=
    hnames.sublist (List.drop_sublist args.length e.arg_names)
  refine ⟨?_, ?_, ?_⟩
  · intro m hfind
    have hbl := bindLoop_missing e.arg_names (e.arg_names.drop args.length)
      kwargs args m hdropnd hfind
    refine callRun_of_bind_error e args kwargs backend _ ?_
    unfold callBind
    simp only [hbl]
  · intro hfind hleft
    have hsome : ∀ n ∈ e.arg_names.drop args.length,
        dictLookup kwargs n = some ((dictLookup kwargs n).getD defaultTensorVal) := by
      intro n hn
      have := List.find?_eq_none.mp hfind n hn
      cases hl : dictLookup kwargs n with
      | none => rw [hl] at this; simp at this
      | some w => simp
    have hbl := bindLoop_ok e.arg_names
      (fun n => (dictLookup kwargs n).getD defaultTensorVal)
      (e.arg_names.drop args.length) kwargs args hdropnd hkeys hsome
    refine callRun_of_bind_error e args kwargs backend _ ?_
    unfold callBind
    simp only [hbl]
    have hne : ¬ ((kwargs.filter
        (fun p => !((e.arg_names.drop args.length).contains p.1))).isEmpty = true) := by
      intro hc
      exact hleft (List.isEmpty_iff.mp hc)
    rw [if_neg hne]
  · intro hfind hleft hnum
    have hsome : ∀ n ∈ e.arg_names.drop args.length,
        dictLookup kwargs n = some ((dictLookup kwargs n).getD defaultTensorVal) := by
      intro n hn
      have := List.find?_eq_none.mp hfind n hn
      cases hl : dictLookup kwargs n with
      | none => rw [hl] at this; simp at this
      | some w => simp
    have hbl := bindLoop_ok e.arg_names
      (fun n => (dictLookup kwargs n).getD defaultTensorVal)
      (e.arg_names.drop args.length) kwargs args hdropnd hkeys hsome
    refine callRun_of_bind_error e args kwargs backend _ ?_
    unfold callBind
    simp only [hbl, hleft]
    simp [hnum]

/-- Witness for C1: an Executable declaring (a, b) called with zero
arguments fails with the missing-argument error for a; called with one
positional argument plus keyword values for both a and b fails with the
extra-arguments error; called with three positional arguments fails with
the arity-mismatch error. In each case the event trace is empty. -/
theorem executable_call_bind_trichotomy_witness :
    callRun sampleExeAB [] [] backendOk =
      (.error (.bindError (.missingArgument "a" ["a", "b"])), [])
    ∧ callRun sampleExeAB [sampleF32] [("a", sampleI32), ("b", sampleF32)] backendOk =
      (.error (.bindError (.extraArguments ["a"] ["a"])), [])
    ∧ callRun sampleExeAB [sampleF32, sampleF32, sampleI32] [] backendOk =
      (.error (.bindError (.arityMismatch 2 3)), []) := by
  refine ⟨?_, ?_, ?_⟩
  · exact (executable_call_bind_trichotomy sampleExeAB [] [] backendOk
      (by decide) (by decide)).1 "a" (by decide)
  · exact (executable_call_bind_trichotomy sampleExeAB [sampleF32]
      [("a", sampleI32), ("b", sampleF32)] backendOk (by decide) (by decide)).2.1
      (by decide) (by decide)
  · exact (executable_call_bind_trichotomy sampleExeAB
      [sampleF32, sampleF32, sampleI32] [] backendOk (by decide) (by decide)).2.2
      (by decide) (by decide) (by decide)

theorem dictLookup_mem_keys (l : List (String × TensorVal)) (n : String)
    (w : TensorVal) (h : dictLookup l n = some w) : n ∈ l.map Prod.fst := by
  induction l with
  | nil => simp [dictLookup] at h
  | cons p rest ih =>
    obtain ⟨k, u⟩ := p
    by_cases hk : k = n
    · simp [hk]
    · simp only [dictLookup, if_neg hk] at h
      simp [ih h]

/-- Claim C9: argument binding is independent of positional/keyword
mixing. For every executable, valuation `v` of its declared argument names
and split point `k`, calling with the first `k` values positional and the
rest as keyword arguments (in any order) binds the same ordered input list
`e.arg_names.map v` as the all-positional call, and the whole invocation —
including the backend call — is identical to the all-positional one. -/
theorem executable_call_mix_invariance (e : Executable)
    (v : String → TensorVal) (k : Nat) (kwargs : List (String × TensorVal))
    (backend : List TensorVal → Except (List Char) (List TensorVal))
    (hk : k ≤ e.arg_names.length) (hnames : e.arg_names.Nodup)
    (hkeys : (kwargs.map Prod.fst).Nodup)
    (hsub : ∀ p ∈ kwargs, p.1 ∈ e.arg_names.drop k)
    (hcover : ∀ n ∈ e.arg_names.drop k, dictLookup kwargs n = some (v n)) :
    callBind e.arg_names ((e.arg_names.take k).map v) kwargs =
      .ok (e.arg_names.map v)
    ∧ callRun e ((e.arg_names.take k).map v) kwargs backend =
      callRun e (e.arg_names.map v) [] backend := by
  have hdropnd : (e.arg_names.drop k).Nodup :=
    hnames.sublist (List.drop_sublist k e.arg_names)
  have hlen : ((e.arg_names.take k).map v).length = k := by
    simp [List.length_take, Nat.min_eq_left hk]
  -- the keyword keys are a permutation of the names after the split point
  have hsubkeys : (kwargs.map Prod.fst) ⊆ e.arg_names.drop k := by
    intro n hn
    obtain ⟨p, hp, hpn⟩ := List.mem_map.mp hn
    exact hpn ▸ hsub p hp
  have hsupkeys : e.arg_names.drop k ⊆ kwargs.map Prod.fst := by
    intro n hn
    exact dictLookup_mem_keys kwargs n (v n) (hcover n hn)
  have hklen : kwargs.length = (e.arg_names.drop k).length := by
    have h1 : (kwargs.map Prod.fst).length ≤ (e.arg_names.drop k).length :=
      (hkeys.subperm hsubkeys).length_le
    have h2 : (e.arg_names.drop k).length ≤ (kwargs.map Prod.fst).length :=
      (hdropnd.subperm hsupkeys).length_le
    have := Nat.le_antisymm h1 h2
    simpa using this
  have hleft : kwargs.filter
      (fun p => !((e.arg_names.drop k).contains p.1)) = [] := by
    rw [List.filter_eq_nil_iff]
    intro p hp
    simp
    exact hsub p hp
  have hbl := bindLoop_ok e.arg_names v (e.arg_names.drop k) kwargs
    ((e.arg_names.take k).map v) hdropnd hkeys hcover
  have hcbmix : callBind e.arg_names ((e.arg_names.take k).map v) kwargs =
      .ok (e.arg_names.map v) := by
    unfold callBind
    rw [hlen]
    simp only [hbl, hleft]
    have harity : ((e.arg_names.take k).map v).length + kwargs.length
        = e.arg_names.length := by
      rw [hlen, hklen]
      simp [List.length_drop]
      omega
    rw [hlen] at harity
    simp [harity]
  have hcball : callBind e.arg_names (e.arg_names.map v) [] =
      .ok (e.arg_names.map v) := by
    unfold callBind
    have hdrop : e.arg_names.drop (e.arg_names.map v).length = [] := by
      simp [List.drop_length]
    simp [hdrop, bindLoop]
  refine ⟨hcbmix, ?_⟩
  unfold callRun
  rw [hcbmix, hcball]

/-- Witness for C9: for an Executable declaring (a, b), the mixed call
f(x, b=y) binds the same ordered inputs [x, y] as the all-positional call
f(x, y), and the two invocations are identical end to end. -/
theorem executable_call_mix_invariance_witness :
    callBind ["a", "b"] [sampleF32] [("b", sampleI32)] = .ok [sampleF32, sampleI32]
    ∧ callRun sampleExeAB [sampleF32] [("b", sampleI32)] backendOk =
      callRun sampleExeAB [sampleF32, sampleI32] [] backendOk := by
  have h := executable_call_mix_invariance sampleExeAB
    (fun n => if n = "a" then sampleF32 else sampleI32) 1 [("b", sampleI32)]
    backendOk (by decide) (by decide) (by decide) (by decide) (by decide)
  constructor
  · simpa [sampleExeAB, sampleF32, sampleI32] using h.1
  · simpa [sampleExeAB, sampleF32, sampleI32] using h.2

theorem getD_map {α β : Type} (f : α → β) (l : List α) (i : Nat) (d : α) :
    (l.map f).getD i (f d) = f (l.getD i d) := by
  induction l generalizing i with
  | nil => simp
  | cons a t ih => cases i <;> simp [ih]

theorem zip3_length {α β γ : Type} : ∀ (as : List α) (bs : List β) (cs : List γ),
    (zip3 as bs cs).length = min as.length (min bs.length cs.length)
  | a :: as, b :: bs, c :: cs => by
    simp [zip3, zip3_length as bs cs]
    omega
  | [], _, _ => by simp [zip3]
  | _ :: _, [], _ => by simp [zip3]
  | _ :: _, _ :: _, [] => by simp [zip3]

theorem zip3_getD {α β γ : Type} :
    ∀ (as : List α) (bs : List β) (cs : List γ) (i : Nat) (da : α) (db : β)
      (dc : γ), i < as.length → i < bs.length → i < cs.length →
      (zip3 as bs cs).getD i (da, db, dc) =
        (as.getD i da, bs.getD i db, cs.getD i dc)
  | a :: as, b :: bs, c :: cs, 0, _, _, _, _, _, _ => by simp [zip3]
  | a :: as, b :: bs, c :: cs, i + 1, da, db, dc, ha, hb, hc => by
    simp only [zip3, List.getD_cons_succ]
    exact zip3_getD as bs cs i da db dc (by simpa using ha) (by simpa using hb)
      (by simpa using hc)
  | [], _, _, i, _, _, _, ha, _, _ => absurd ha (by simp)
  | _ :: _, [], _, i, _, _, _, _, hb, _ => absurd hb (by simp)
  | _ :: _, _ :: _, [], i, _, _, _, _, _, hc => absurd hc (by simp)

theorem firstDtypeMismatch_spec :
    ∀ (L : List (TensorVal × DType × String)) (i : Nat)
      (d3 : TensorVal × DType × String), i < L.length →
      (L.getD i d3).1.dtype ≠ (L.getD i d3).2.1 →
      (∀ j, j < i → (L.getD j d3).1.dtype = (L.getD j d3).2.1) →
      firstDtypeMismatch L =
        some ((L.getD i d3).2.2, (L.getD i d3).2.1, (L.getD i d3).1.dtype)
  | [], i, _, hi, _, _ => absurd hi (by simp)
  | (t, dt, nm) :: rest, 0, d3, _, hne, _ => by
    simp only [List.getD_cons_zero] at hne ⊢
    simp [firstDtypeMismatch, hne]
  | (t, dt, nm) :: rest, i + 1, d3, hi, hne, hfirst => by
    have h0 := hfirst 0 (Nat.succ_pos i)
    simp only [List.getD_cons_zero] at h0
    simp only [List.getD_cons_succ] at hne ⊢
    simp only [firstDtypeMismatch, h0, ne_eq, not_true_eq_false, if_false]
    exact firstDtypeMismatch_spec rest i d3 (by simpa using hi) hne
      (fun j hj => by
        have := hfirst (j + 1) (Nat.succ_lt_succ hj)
        simpa using this)

/-- Claim C2: when the backend raises a message containing the element-type
mismatch phrase, `Executable.__call__` re-raises a diagnostic naming the
first parameter (in declared argument order) whose supplied tensor dtype
differs from the dtype recorded for it in the compiled signature, reporting
the expected and the actual dtype. -/
theorem executable_call_dtype_diagnostic (e : Executable)
    (args : List TensorVal) (kwargs : List (String × TensorVal))
    (tensors : List TensorVal) (msg : List Char)
    (backend : List TensorVal → Except (List Char) (List TensorVal)) (i : Nat)
    (hbind : callBind e.arg_names args kwargs = .ok tensors)
    (hbackend : backend tensors = .error msg)
    (hmsg : containsSub dtypePhrase msg = true)
    (h1 : i < tensors.length)
    (h2 : i < (getInputInfo (signatureOf e)).length)
    (h3 : i < e.arg_names.length)
    (hne : (tensors.getD i defaultTensorVal).dtype ≠
      ((getInputInfo (signatureOf e)).getD i defaultArgInfo).dtype)
    (hfirst : ∀ j, j < i → (tensors.getD j defaultTensorVal).dtype =
      ((getInputInfo (signatureOf e)).getD j defaultArgInfo).dtype) :
    callRun e args kwargs backend =
      (.error (.unexpectedDtype (e.arg_names.getD i "")
          (((getInputInfo (signatureOf e)).getD i defaultArgInfo).dtype)
          ((tensors.getD i defaultTensorVal).dtype)),
        ((List.range tensors.length).map Ev.materialize) ++ [Ev.invoke]) := by
  have hget : ∀ j, j ≤ i →
      (zip3 tensors ((getInputInfo (signatureOf e)).map ArgInfo.dtype)
        e.arg_names).getD j (defaultTensorVal, defaultArgInfo.dtype, "") =
      (tensors.getD j defaultTensorVal,
        ((getInputInfo (signatureOf e)).getD j defaultArgInfo).dtype,
        e.arg_names.getD j "") := by
    intro j hj
    rw [zip3_getD tensors ((getInputInfo (signatureOf e)).map ArgInfo.dtype)
      e.arg_names j defaultTensorVal defaultArgInfo.dtype ""
      (lt_of_le_of_lt hj h1)
      (by rw [List.length_map]; exact lt_of_le_of_lt hj h2)
      (lt_of_le_of_lt hj h3)]
    rw [getD_map ArgInfo.dtype (getInputInfo (signatureOf e)) j defaultArgInfo]
  have hzlen : i < (zip3 tensors
      ((getInputInfo (signatureOf e)).map ArgInfo.dtype) e.arg_names).length := by
    rw [zip3_length]
    simp only [List.length_map]
    omega
  have hspec := firstDtypeMismatch_spec
    (zip3 tensors ((getInputInfo (signatureOf e)).map ArgInfo.dtype) e.arg_names)
    i (defaultTensorVal, defaultArgInfo.dtype, "") hzlen
    (by rw [hget i le_rfl]; exact hne)
    (fun j hj => by rw [hget j (Nat.le_of_lt hj)]; exact hfirst j hj)
  rw [hget i le_rfl] at hspec
  unfold callRun
  rw [hbind]
  simp only [hbackend]
  unfold translateErr
  rw [if_pos hmsg, hspec]

theorem isPrefixOfB_self : ∀ l : List Char, isPrefixOfB l l = true
  | [] => rfl
  | c :: rest => by simp [isPrefixOfB, isPrefixOfB_self rest]

theorem containsSub_self : ∀ l : List Char, containsSub l l = true
  | [] => rfl
  | c :: rest => by simp [containsSub, isPrefixOfB_self]

/-- Witness for C2: an Executable whose sole float32 argument is supplied
an int32 tensor of otherwise-correct shape, when the backend reports the
element-type mismatch phrase, raises the unexpected-dtype diagnostic naming
that parameter with expected float32 and actual int32. -/
theorem executable_call_dtype_diagnostic_witness :
    callRun sampleExe1 [⟨.int32, [2]⟩] [] backendDtypeErr =
      (.error (.unexpectedDtype "x" .float32 .int32),
        [.materialize 0, .invoke]) := by
  have h := executable_call_dtype_diagnostic sampleExe1 [⟨.int32, [2]⟩] []
    [⟨.int32, [2]⟩] dtypePhrase backendDtypeErr 0 rfl rfl
    (containsSub_self dtypePhrase) (by decide) (by decide) (by decide)
    (by decide) (fun j hj => absurd hj (Nat.not_lt_zero j))
  simpa using h

theorem firstDimViolationAux_none :
    ∀ (i0 : Nat) (shape : List Nat) (bounds : List (Nat × Nat)),
      (∀ d, d < shape.length → (bounds.getD d (0, 0)).1 ≤ shape.getD d 0 ∧
        shape.getD d 0 ≤ (bounds.getD d (0, 0)).2) →
      firstDimViolationAux i0 shape bounds = none
  | _, [], _, _ => rfl
  | _, _ :: _, [], _ => rfl
  | i0, s :: srest, b :: brest, h => by
    have h0 := h 0 (by simp)
    simp only [List.getD_cons_zero] at h0
    simp only [firstDimViolationAux]
    rw [if_neg (by omega)]
    exact firstDimViolationAux_none (i0 + 1) srest brest (fun d hd => by
      have := h (d + 1) (by simpa using Nat.succ_lt_succ hd)
      simpa using this)

theorem firstDimViolationAux_some :
    ∀ (i0 : Nat) (shape : List Nat) (bounds : List (Nat × Nat)) (d : Nat),
      d < shape.length → d < bounds.length →
      (shape.getD d 0 < (bounds.getD d (0, 0)).1 ∨
        shape.getD d 0 > (bounds.getD d (0, 0)).2) →
      (∀ d2, d2 < d → (bounds.getD d2 (0, 0)).1 ≤ shape.getD d2 0 ∧
        shape.getD d2 0 ≤ (bounds.getD d2 (0, 0)).2) →
      firstDimViolationAux i0 shape bounds =
        some (i0 + d, bounds.getD d (0, 0), shape.getD d 0)
  | _, [], _, d, hd, _, _, _ => absurd hd (by simp)
  | _, _ :: _, [], d, _, hb, _, _ => absurd hb (by simp)
  | i0, s :: srest, b :: brest, 0, _, _, hviol, _ => by
    simp only [List.getD_cons_zero] at hviol ⊢
    simp only [firstDimViolationAux]
    rw [if_pos hviol]
    simp
  | i0, s :: srest, b :: brest, d + 1, hd, hb, hviol, hfirst => by
    have h0 := hfirst 0 (Nat.succ_pos d)
    simp only [List.getD_cons_zero] at h0
    simp only [List.getD_cons_succ] at hviol ⊢
    simp only [firstDimViolationAux]
    rw [if_neg (by omega)]
    rw [firstDimViolationAux_some (i0 + 1) srest brest d (by simpa using hd)
      (by simpa using hb) hviol (fun d2 hd2 => by
        have := hfirst (d2 + 1) (Nat.succ_lt_succ hd2)
        simpa using this)]
    have harr : i0 + 1 + d = i0 + (d + 1) := by omega
    rw [harr]

theorem firstShapeViolation_spec :
    ∀ (L : List (TensorVal × List (Nat × Nat) × String)) (k : Nat)
      (dd : TensorVal × List (Nat × Nat) × String) (d : Nat),
      k < L.length →
      (∀ j, j ≤ k → (L.getD j dd).1.shape.length ≤ (L.getD j dd).2.1.length) →
      d < (L.getD k dd).1.shape.length →
      ((L.getD k dd).1.shape.getD d 0 < ((L.getD k dd).2.1.getD d (0, 0)).1 ∨
        (L.getD k dd).1.shape.getD d 0 > ((L.getD k dd).2.1.getD d (0, 0)).2) →
      (∀ d2, d2 < d → ((L.getD k dd).2.1.getD d2 (0, 0)).1 ≤
          (L.getD k dd).1.shape.getD d2 0 ∧
        (L.getD k dd).1.shape.getD d2 0 ≤ ((L.getD k dd).2.1.getD d2 (0, 0)).2) →
      (∀ j, j < k → ∀ d2, d2 < (L.getD j dd).1.shape.length →
        ((L.getD j dd).2.1.getD d2 (0, 0)).1 ≤ (L.getD j dd).1.shape.getD d2 0 ∧
        (L.getD j dd).1.shape.getD d2 0 ≤ ((L.getD j dd).2.1.getD d2 (0, 0)).2) →
      firstShapeViolation L = some ((L.getD k dd).2.2, d,
        (L.getD k dd).2.1.getD d (0, 0), (L.getD k dd).1.shape.getD d 0)
  | [], k, _, _, hk, _, _, _, _, _ => absurd hk (by simp)
  | (t, bounds, nm) :: rest, 0, dd, d, _, hcov, hd, hviol, hdfirst, _ => by
    simp only [List.getD_cons_zero] at hcov hd hviol hdfirst ⊢
    have haux := firstDimViolationAux_some 0 t.shape bounds d hd
      (lt_of_lt_of_le hd (by simpa using hcov 0 (Nat.le_refl 0))) hviol hdfirst
    simp only [firstShapeViolation, haux]
    simp
  | (t, bounds, nm) :: rest, k + 1, dd, d, hk, hcov, hd, hviol, hdfirst, hkfirst => by
    have hhead := hkfirst 0 (Nat.succ_pos k)
    simp only [List.getD_cons_zero] at hhead
    have haux := firstDimViolationAux_none 0 t.shape bounds hhead
    simp only [List.getD_cons_succ] at hcov hd hviol hdfirst hkfirst ⊢
    simp only [firstShapeViolation, haux]
    exact firstShapeViolation_spec rest k dd d (by simpa using hk)
      (fun j hj => by
        have := hcov (j + 1) (Nat.succ_le_succ hj)
        simpa using this)
      hd hviol hdfirst
      (fun j hj => by
        have := hkfirst (j + 1) (Nat.succ_lt_succ hj)
        simpa using this)

/-- Claim C3: when the backend raises a message matching a shape/bound
violation phrase (and not the element-type phrase, which is checked first),
`Executable.__call__` recomputes each input's per-dimension (min, max)
bound window from the compiled signature and re-raises a diagnostic
identifying the first dimension of the first tensor (in declared argument
order) whose size lies outside its window, reporting the dimension index,
the bound window and the actual size. The coverage hypothesis `hcov`
reflects the source's `expected_bounds[i]` indexing, which presumes the
bound list covers every dimension of each earlier tensor's shape. -/
theorem executable_call_shape_diagnostic (e : Executable)
    (args : List TensorVal) (kwargs : List (String × TensorVal))
    (tensors : List TensorVal) (msg : List Char)
    (backend : List TensorVal → Except (List Char) (List TensorVal))
    (k d : Nat)
    (hbind : callBind e.arg_names args kwargs = .ok tensors)
    (hbackend : backend tensors = .error msg)
    (hnd : containsSub dtypePhrase msg = false)
    (hmsg : (containsSub shapePhrase1 msg || containsSub shapePhrase2 msg) = true)
    (h1 : k < tensors.length)
    (h2 : k < (getInputInfo (signatureOf e)).length)
    (h3 : k < e.arg_names.length)
    (hcov : ∀ j, j ≤ k → (tensors.getD j defaultTensorVal).shape.length ≤
      ((getInputInfo (signatureOf e)).getD j defaultArgInfo).shape_bounds.length)
    (hd : d < (tensors.getD k defaultTensorVal).shape.length)
    (hviol : (tensors.getD k defaultTensorVal).shape.getD d 0 <
        (((getInputInfo (signatureOf e)).getD k defaultArgInfo).shape_bounds.getD d (0, 0)).1 ∨
      (tensors.getD k defaultTensorVal).shape.getD d 0 >
        (((getInputInfo (signatureOf e)).getD k defaultArgInfo).shape_bounds.getD d (0, 0)).2)
    (hdfirst : ∀ d2, d2 < d →
      (((getInputInfo (signatureOf e)).getD k defaultArgInfo).shape_bounds.getD d2 (0, 0)).1 ≤
        (tensors.getD k defaultTensorVal).shape.getD d2 0 ∧
      (tensors.getD k defaultTensorVal).shape.getD d2 0 ≤
        (((getInputInfo (signatureOf e)).getD k defaultArgInfo).shape_bounds.getD d2 (0, 0)).2)
    (hkfirst : ∀ j, j < k → ∀ d2, d2 < (tensors.getD j defaultTensorVal).shape.length →
      (((getInputInfo (signatureOf e)).getD j defaultArgInfo).shape_bounds.getD d2 (0, 0)).1 ≤
        (tensors.getD j defaultTensorVal).shape.getD d2 0 ∧
      (tensors.getD j defaultTensorVal).shape.getD d2 0 ≤
        (((getInputInfo (signatureOf e)).getD j defaultArgInfo).shape_bounds.getD d2 (0, 0)).2) :
    callRun e args kwargs backend =
      (.error (.shapeOutOfBounds (e.arg_names.getD k "") d
          (((getInputInfo (signatureOf e)).getD k defaultArgInfo).shape_bounds.getD d (0, 0))
          ((tensors.getD k defaultTensorVal).shape.getD d 0)),
        ((List.range tensors.length).map Ev.materialize) ++ [Ev.invoke]) := by
  have hget : ∀ j, j ≤ k →
      (zip3 tensors ((getInputInfo (signatureOf e)).map ArgInfo.shape_bounds)
        e.arg_names).getD j (defaultTensorVal, defaultArgInfo.shape_bounds, "") =
      (tensors.getD j defaultTensorVal,
        ((getInputInfo (signatureOf e)).getD j defaultArgInfo).shape_bounds,
        e.arg_names.getD j "") := by
    intro j hj
    rw [zip3_getD tensors ((getInputInfo (signatureOf e)).map ArgInfo.shape_bounds)
      e.arg_names j defaultTensorVal defaultArgInfo.shape_bounds ""
      (lt_of_le_of_lt hj h1)
      (by rw [List.length_map]; exact lt_of_le_of_lt hj h2)
      (lt_of_le_of_lt hj h3)]
    rw [getD_map ArgInfo.shape_bounds (getInputInfo (signatureOf e)) j defaultArgInfo]
  have hzlen : k < (zip3 tensors
      ((getInputInfo (signatureOf e)).map ArgInfo.shape_bounds) e.arg_names).length := by
    rw [zip3_length]
    simp only [List.length_map]
    omega
  have hspec := firstShapeViolation_spec
    (zip3 tensors ((getInputInfo (signatureOf e)).map ArgInfo.shape_bounds) e.arg_names)
    k (defaultTensorVal, defaultArgInfo.shape_bounds, "") d hzlen
    (fun j hj => by rw [hget j hj]; exact hcov j hj)
    (by rw [hget k le_rfl]; exact hd)
    (by rw [hget k le_rfl]; exact hviol)
    (fun d2 hd2 => by rw [hget k le_rfl]; exact hdfirst d2 hd2)
    (fun j hj => by rw [hget j (Nat.le_of_lt hj)]; exact hkfirst j hj)
  rw [hget k le_rfl] at hspec
  unfold callRun
  rw [hbind]
  simp only [hbackend]
  unfold translateErr
  rw [if_neg (by simp [hnd]), if_pos hmsg, hspec]

/-- Witness for C3: an argument declared with dynamic-dimension bounds
[(1, 4)] supplied a tensor of size 5 in that dimension raises the
shape-out-of-bounds diagnostic naming dimension 0, bounds (1, 4),
actual 5. -/
theorem executable_call_shape_diagnostic_witness :
    callRun sampleExe1 [⟨.float32, [5]⟩] [] backendShapeErr =
      (.error (.shapeOutOfBounds "x" 0 (1, 4) 5),
        [.materialize 0, .invoke]) := by
  have h := executable_call_shape_diagnostic sampleExe1 [⟨.float32, [5]⟩] []
    [⟨.float32, [5]⟩] shapePhrase2 backendShapeErr 0 0 rfl rfl
    (by decide) (by simp [containsSub_self]) (by decide) (by decide) (by decide)
    (fun j hj => by
      have hj0 : j = 0 := Nat.le_zero.mp hj
      subst hj0
      decide)
    (by decide) (by decide)
    (fun d2 hd2 => absurd hd2 (Nat.not_lt_zero d2))
    (fun j hj => absurd hj (Nat.not_lt_zero j))
  simpa using h

theorem b64_roundtrip : ∀ (l : List Nat), (∀ b ∈ l, b < 256) →
    b64decode (b64encode l) = l
  | [], _ => rfl
  | [b1], _ => by
    simp only [b64encode, b64decode]
    have e1 : b1 / 4 * 4 + b1 % 4 * 16 / 16 = b1 := by omega
    rw [e1]
  | [b1, b2], h => by
    have h2 : b2 < 256 := h b2 (by simp)
    simp only [b64encode, b64decode]
    have e1 : b1 / 4 * 4 + (b1 % 4 * 16 + b2 / 16) / 16 = b1 := by omega
    have e2 : (b1 % 4 * 16 + b2 / 16) % 16 * 16 + b2 % 16 * 4 / 4 = b2 := by omega
    rw [e1, e2]
  | b1 :: b2 :: b3 :: rest, h => by
    have h2 : b2 < 256 := h b2 (by simp)
    have h3 : b3 < 256 := h b3 (by simp)
    have ih := b64_roundtrip rest (fun b hb => h b (by simp [hb]))
    simp only [b64encode, b64decode, ih]
    have e1 : b1 / 4 * 4 + (b1 % 4 * 16 + b2 / 16) / 16 = b1 := by omega
    have e2 : (b1 % 4 * 16 + b2 / 16) % 16 * 16 + (b2 % 16 * 4 + b3 / 64) / 4 = b2 := by
      omega
    have e3 : (b2 % 16 * 4 + b3 / 64) % 4 * 64 + b3 % 64 = b3 := by omega
    rw [e1, e2, e3]

/-- Claim C4: decoding the encoded record of an Executable — the artifact
bytes round-tripped through base64 and the backend's serialize/deserialize —
reconstructs an Executable with identical ordered argument names, identical
output device assignment, and a re-derived signature with identical
per-argument shape bounds and dtypes; the encoded record consists of the
argument names, the output devices and the base64 text only, and the
decoded executable's signature is recomputed from the restored artifact. -/
theorem encode_decode_executable_roundtrip (serialize : Artifact → List Nat)
    (deserialize : List Nat → Artifact) (e : Executable)
    (hbytes : ∀ b ∈ serialize e.executable, b < 256)
    (hround : deserialize (serialize e.executable) = e.executable) :
    (decode_executable deserialize (encode_executable serialize e)).arg_names =
      e.arg_names
    ∧ (decode_executable deserialize (encode_executable serialize e)).output_devices =
      e.output_devices
    ∧ signatureOf (decode_executable deserialize (encode_executable serialize e)) =
      signatureOf e
    ∧ getInputInfo (signatureOf (decode_executable deserialize
        (encode_executable serialize e))) = getInputInfo (signatureOf e)
    ∧ getOutputInfo (signatureOf (decode_executable deserialize
        (encode_executable serialize e))) = getOutputInfo (signatureOf e)
    ∧ encode_executable serialize e =
      ⟨e.arg_names, e.output_devices, b64encode (serialize e.executable)⟩ := by
  have hart : (decode_executable deserialize (encode_executable serialize e)).executable =
      e.executable := by
    unfold decode_executable encode_executable
    simp only
    rw [b64_roundtrip (serialize e.executable) hbytes, hround]
  refine ⟨rfl, rfl, ?_, ?_, ?_, rfl⟩
  · unfold signatureOf
    rw [hart]
  · unfold signatureOf
    rw [hart]
  · unfold signatureOf
    rw [hart]

/-- Witness for C4: a concrete executable whose artifact serializes to the
bytes [5, 200] round-trips through the record encoding with identical
argument names, output devices and derived signature info. -/
theorem encode_decode_executable_roundtrip_witness :
    (decode_executable (fun bs => ⟨sampleSig1, bs⟩)
        (encode_executable Artifact.payload sampleExe1)).arg_names =
      sampleExe1.arg_names
    ∧ (decode_executable (fun bs => ⟨sampleSig1, bs⟩)
        (encode_executable Artifact.payload sampleExe1)).output_devices =
      sampleExe1.output_devices
    ∧ signatureOf (decode_executable (fun bs => ⟨sampleSig1, bs⟩)
        (encode_executable Artifact.payload sampleExe1)) =
      signatureOf sampleExe1 := by
  have h := encode_decode_executable_roundtrip Artifact.payload
    (fun bs => ⟨sampleSig1, bs⟩) sampleExe1 (by decide) rfl
  exact ⟨h.1, h.2.1, h.2.2.1⟩
